import Mathlib

set_option maxHeartbeats 1000000

/-!
Shallow embedding of the `packet` library (i96751414/packet): the tagged,
schema-constrained envelope codec of `packet/basepacket.py`, its restricted
literal evaluator `safe_eval`, and the spec-described components whose
source files are not under `src/` (the type-constrained `InspectedPacket`
and the encryption overlay), which are modelled from the spec.
-/

mutual
/-- Python values in the literal universe handled by the packet library:
strings, byte strings, integers, booleans, `None`, tuples, lists, sets and
dicts.  Floats and complex numbers are abstracted to the single atom
`vfloatApprox` (no claim depends on float arithmetic); `vset` and `vdict`
model Python sets/dicts as element/association sequences (Python
guarantees distinct keys in a dict; deduplication is not re-modelled). -/
inductive PyVal : Type where
  | vstr (s : String)
  | vbytes (b : List Nat)
  | vint (n : Int)
  | vfloatApprox
  | vbool (b : Bool)
  | vnone
  | vtuple (xs : PyValList)
  | vlist (xs : PyValList)
  | vset (xs : PyValList)
  | vdict (kvs : PyValPairs)

inductive PyValList : Type where
  | nil
  | cons (head : PyVal) (tail : PyValList)

inductive PyValPairs : Type where
  | nil
  | cons (key : PyVal) (val : PyVal) (tail : PyValPairs)
end

/-- Python runtime types of the values above (`type(v)` in Python);
`bool` and `int` are distinct runtime types. -/
inductive PyType : Type where
  | tstr | tbytes | tint | tfloat | tbool | tnone | ttuple | tlist | tset | tdict
deriving DecidableEq, Repr

/-- `type(v)` for the modelled values. -/
def pyTypeOf : PyVal → PyType
  | .vstr _ => .tstr
  | .vbytes _ => .tbytes
  | .vint _ => .tint
  | .vfloatApprox => .tfloat
  | .vbool _ => .tbool
  | .vnone => .tnone
  | .vtuple _ => .ttuple
  | .vlist _ => .tlist
  | .vset _ => .tset
  | .vdict _ => .tdict

/-- Unary operators as classified by `safe_eval`: `UAdd`, `USub`, and any
other unary operator (`Not`, `Invert`), which falls through to the final
`raise ValueError`. -/
inductive UOp : Type where
  | uadd | usub | uother
deriving DecidableEq, Repr

/-- Binary operators as classified by `safe_eval`: `Add`, `Sub`, and any
other binary operator (`Mult`, `Div`, ...), which falls through to the
final `raise ValueError`. -/
inductive BOp : Type where
  | badd | bsub | bother
deriving DecidableEq, Repr

mutual
/-- The abstract syntax of Python expressions as produced by
`ast.parse(text, mode="eval")`, restricted to the node kinds `safe_eval`
inspects plus the forbidden forms the spec names (comparison, attribute
access, subscripting, boolean logic).  Statements (imports, assignments)
cannot occur: `mode="eval"` rejects them at parse time with a
`SyntaxError`, modelled by `Wire.malformed` below.  `constFloat` is a
float/complex numeric literal, abstracted like `PyVal.vfloatApprox`.
`call` is a call whose `func` is a plain `Name`; `callNonName` is a call
whose `func` is any other expression (there `node.func.id` raises
`AttributeError`). -/
inductive PyExpr : Type where
  | constStr (s : String)
  | constBytes (b : List Nat)
  | constInt (n : Int)
  | constFloat
  | constBool (b : Bool)
  | constNone
  | etuple (es : PyExprList)
  | elist (es : PyExprList)
  | eset (es : PyExprList)
  | edict (kvs : PyExprPairs)
  | name (id : String)
  | call (f : String) (args : PyExprList)
  | callNonName (args : PyExprList)
  | unaryOp (op : UOp) (e : PyExpr)
  | binOp (op : BOp) (l : PyExpr) (r : PyExpr)
  | compare (l : PyExpr) (r : PyExpr)
  | attributeAccess (e : PyExpr) (attr : String)
  | subscript (e : PyExpr) (idx : PyExpr)
  | boolOp (l : PyExpr) (r : PyExpr)

inductive PyExprList : Type where
  | nil
  | cons (head : PyExpr) (tail : PyExprList)

inductive PyExprPairs : Type where
  | nil
  | cons (key : PyExpr) (val : PyExpr) (tail : PyExprPairs)
end

/-- The Python exceptions `safe_eval` can raise: `ValueError` (the explicit
`raise` at the end of `_convert`), `AttributeError` (from `node.func.id`
when the called function is not a plain name) and `TypeError` (from the
`set(*args)` constructor applied to bad arguments).  Only `ValueError` is
caught by `Packet.dumps`. -/
inductive EvalErr : Type where
  | valueError (msg : String)
  | attributeError (msg : String)
  | typeError (msg : String)
deriving DecidableEq, Repr

/-- `_SAFE_NAMES` of basepacket.py: the value bound to a safe name, if the
name is safe.  `inf`, `nan`, `infj`, `nanj` are float/complex constants,
abstracted to `vfloatApprox`. -/
def safeNameVal : String → Option PyVal
  | "None" => some .vnone
  | "True" => some (.vbool true)
  | "False" => some (.vbool false)
  | "inf" => some .vfloatApprox
  | "nan" => some .vfloatApprox
  | "infj" => some .vfloatApprox
  | "nanj" => some .vfloatApprox
  | _ => none

/-- Membership in `_NUM_TYPES = (int, float, complex)` (bools are not
numeric for `safe_eval`'s checks even though Python's `bool` subclasses
`int`; note `isinstance(True, (int, float, complex))` is actually true in
Python — see `isNumPy` below which models it faithfully). -/
def isNumPy : PyVal → Bool
  | .vint _ => true
  | .vfloatApprox => true
  | .vbool _ => true
  | _ => false

/-- Unary `+`/`-` on a numeric operand (the only case `safe_eval`
applies it).  `+True = 1` and `-True = -1` in Python, so bools become
ints. -/
def applyUnary (op : UOp) : PyVal → PyVal
  | .vint n => if op = .usub then .vint (-n) else .vint n
  | .vbool b => if op = .usub then .vint (-(if b then 1 else 0)) else .vint (if b then 1 else 0)
  | v => v

/-- Binary `+`/`-` on numeric operands (the only case `safe_eval` applies
it); any operand that is a float/complex atom yields the float atom. -/
def applyBin (op : BOp) (l r : PyVal) : PyVal :=
  match l, r with
  | .vint a, .vint b => if op = .bsub then .vint (a - b) else .vint (a + b)
  | .vint a, .vbool b => if op = .bsub then .vint (a - (if b then 1 else 0)) else .vint (a + (if b then 1 else 0))
  | .vbool a, .vint b => if op = .bsub then .vint ((if a then 1 else 0) - b) else .vint ((if a then 1 else 0) + b)
  | .vbool a, .vbool b => if op = .bsub then .vint ((if a then 1 else 0) - (if b then 1 else 0)) else .vint ((if a then 1 else 0) + (if b then 1 else 0))
  | _, _ => .vfloatApprox

/-- The elements of a string as one-character Python strings (what
`set("ab")` iterates over). -/
def strElems : List Char → PyValList
  | [] => .nil
  | c :: cs => .cons (.vstr (String.mk [c])) (strElems cs)

/-- The elements of a byte string as Python ints (what `set(b"ab")`
iterates over). -/
def bytesElems : List Nat → PyValList
  | [] => .nil
  | b :: bs => .cons (.vint (Int.ofNat b)) (bytesElems bs)

/-- The keys of a dict (what `set(d)` iterates over). -/
def pairKeys : PyValPairs → PyValList
  | .nil => .nil
  | .cons k _ t => .cons k (pairKeys t)

/-- `set(*args)` over already-evaluated arguments, as `_SAFE_CALLS["set"]`
invokes it: no argument gives the empty set, a single iterable argument
gives the set of its elements, anything else raises `TypeError`.
Deduplication of elements is not re-modelled (sets are element
sequences throughout). -/
def setCall : PyValList → Except EvalErr PyVal
  | .nil => .ok (.vset .nil)
  | .cons a .nil =>
    match a with
    | .vlist xs => .ok (.vset xs)
    | .vtuple xs => .ok (.vset xs)
    | .vset xs => .ok (.vset xs)
    | .vstr s => .ok (.vset (strElems s.data))
    | .vbytes b => .ok (.vset (bytesElems b))
    | .vdict kvs => .ok (.vset (pairKeys kvs))
    | _ => .error (.typeError "object is not iterable")
  | .cons _ (.cons _ _) => .error (.typeError "set expected at most 1 argument")

mutual
/-- `safe_eval`'s inner `_convert` (basepacket.py lines 65-105), the
restricted literal evaluator: constants, tuples, lists, sets, dicts, safe
names, the whitelisted `set` call, unary `+`/`-` on numeric operands and
binary `+`/`-` on numeric operands evaluate; every other node reaches
`raise ValueError("malformed node or string: ...")`.  A call whose `func`
is not a plain name raises `AttributeError` from `node.func.id` before
any argument is converted; a call to a name outside `_SAFE_CALLS` falls
through to the `ValueError` without converting its arguments. -/
def convert : PyExpr → Except EvalErr PyVal
  | .constStr s => .ok (.vstr s)
  | .constBytes b => .ok (.vbytes b)
  | .constInt n => .ok (.vint n)
  | .constFloat => .ok .vfloatApprox
  | .constBool b => .ok (.vbool b)
  | .constNone => .ok .vnone
  | .etuple es =>
    match convertList es with
    | .error e => .error e
    | .ok vs => .ok (.vtuple vs)
  | .elist es =>
    match convertList es with
    | .error e => .error e
    | .ok vs => .ok (.vlist vs)
  | .eset es =>
    match convertList es with
    | .error e => .error e
    | .ok vs => .ok (.vset vs)
  | .edict kvs =>
    match convertPairs kvs with
    | .error e => .error e
    | .ok ps => .ok (.vdict ps)
  | .name id =>
    match safeNameVal id with
    | some v => .ok v
    | none => .error (.valueError "malformed node or string")
  | .call f args =>
    if f = "set" then
      match convertList args with
      | .error e => .error e
      | .ok vs => setCall vs
    else
      .error (.valueError "malformed node or string")
  | .callNonName _ => .error (.attributeError "object has no attribute id")
  | .unaryOp op e =>
    match op with
    | .uother => .error (.valueError "malformed node or string")
    | _ =>
      match convert e with
      | .error err => .error err
      | .ok v =>
        if isNumPy v then .ok (applyUnary op v)
        else .error (.valueError "malformed node or string")
  | .binOp op l r =>
    match op with
    | .bother => .error (.valueError "malformed node or string")
    | _ =>
      match convert l with
      | .error err => .error err
      | .ok lv =>
        match convert r with
        | .error err => .error err
        | .ok rv =>
          if isNumPy lv && isNumPy rv then .ok (applyBin op lv rv)
          else .error (.valueError "malformed node or string")
  | .compare _ _ => .error (.valueError "malformed node or string")
  | .attributeAccess _ _ => .error (.valueError "malformed node or string")
  | .subscript _ _ => .error (.valueError "malformed node or string")
  | .boolOp _ _ => .error (.valueError "malformed node or string")

def convertList : PyExprList → Except EvalErr PyValList
  | .nil => .ok .nil
  | .cons e t =>
    match convert e with
    | .error err => .error err
    | .ok v =>
      match convertList t with
      | .error err => .error err
      | .ok vs => .ok (.cons v vs)

def convertPairs : PyExprPairs → Except EvalErr PyValPairs
  | .nil => .ok .nil
  | .cons k v t =>
    match convert k with
    | .error err => .error err
    | .ok kv =>
      match convert v with
      | .error err => .error err
      | .ok vv =>
        match convertPairs t with
        | .error err => .error err
        | .ok ps => .ok (.cons kv vv ps)
end

example : convert (.call "set" .nil) = .ok (.vset .nil) := by rfl
example : convert (.call "open" (.cons (.constStr "f") .nil)) = .error (.valueError "malformed node or string") := by rfl
example : convert (.binOp .badd (.constInt 2) (.constInt 3)) = .ok (.vint 5) := by rfl

mutual
/-- An expression contains a syntactic form outside the grammar accepted
by `safe_eval`: a call to a non-whitelisted callable (or a call whose
`func` is not a plain name), a comparison, attribute access,
subscripting, boolean logic, a name outside `_SAFE_NAMES`, or a unary or
binary operator other than the permitted `+`/`-`. -/
def containsForbidden : PyExpr → Bool
  | .constStr _ => false
  | .constBytes _ => false
  | .constInt _ => false
  | .constFloat => false
  | .constBool _ => false
  | .constNone => false
  | .etuple es => anyForbiddenList es
  | .elist es => anyForbiddenList es
  | .eset es => anyForbiddenList es
  | .edict kvs => anyForbiddenPairs kvs
  | .name id => (safeNameVal id).isNone
  | .call f args => if f = "set" then anyForbiddenList args else true
  | .callNonName _ => true
  | .unaryOp op e =>
    match op with
    | .uother => true
    | _ => containsForbidden e
  | .binOp op l r =>
    match op with
    | .bother => true
    | _ => containsForbidden l || containsForbidden r
  | .compare _ _ => true
  | .attributeAccess _ _ => true
  | .subscript _ _ => true
  | .boolOp _ _ => true

/-- Some element of the list contains a forbidden form. -/
def anyForbiddenList : PyExprList → Bool
  | .nil => false
  | .cons e t => containsForbidden e || anyForbiddenList t

/-- Some key or value contains a forbidden form. -/
def anyForbiddenPairs : PyExprPairs → Bool
  | .nil => false
  | .cons k v t => containsForbidden k || containsForbidden v || anyForbiddenPairs t
end

mutual
/-- Any expression containing a forbidden construct fails `_convert` with
an exception (never evaluates to a value). -/
theorem convert_forbidden : ∀ (e : PyExpr), containsForbidden e = true →
    ∃ err, convert e = Except.error err
  | .constStr _, h => by simp [containsForbidden] at h
  | .constBytes _, h => by simp [containsForbidden] at h
  | .constInt _, h => by simp [containsForbidden] at h
  | .constFloat, h => by simp [containsForbidden] at h
  | .constBool _, h => by simp [containsForbidden] at h
  | .constNone, h => by simp [containsForbidden] at h
  | .etuple es, h => by
    obtain ⟨err, he⟩ := convertList_forbidden es (by simpa [containsForbidden] using h)
    exact ⟨err, by simp [convert, he]⟩
  | .elist es, h => by
    obtain ⟨err, he⟩ := convertList_forbidden es (by simpa [containsForbidden] using h)
    exact ⟨err, by simp [convert, he]⟩
  | .eset es, h => by
    obtain ⟨err, he⟩ := convertList_forbidden es (by simpa [containsForbidden] using h)
    exact ⟨err, by simp [convert, he]⟩
  | .edict kvs, h => by
    obtain ⟨err, he⟩ := convertPairs_forbidden kvs (by simpa [containsForbidden] using h)
    exact ⟨err, by simp [convert, he]⟩
  | .name id, h => by
    have hn : safeNameVal id = none := by
      simpa [containsForbidden, Option.isNone_iff_eq_none] using h
    exact ⟨.valueError "malformed node or string", by simp [convert, hn]⟩
  | .call f args, h => by
    by_cases hf : f = "set"
    · subst hf
      simp [containsForbidden] at h
      obtain ⟨err, he⟩ := convertList_forbidden args h
      exact ⟨err, by simp [convert, he]⟩
    · exact ⟨.valueError "malformed node or string", by simp [convert, hf]⟩
  | .callNonName args, h =>
    ⟨.attributeError "object has no attribute id", by simp [convert]⟩
  | .unaryOp op e, h => by
    cases op with
    | uother => exact ⟨.valueError "malformed node or string", by simp [convert]⟩
    | uadd =>
      simp [containsForbidden] at h
      obtain ⟨err, he⟩ := convert_forbidden e h
      exact ⟨err, by simp [convert, he]⟩
    | usub =>
      simp [containsForbidden] at h
      obtain ⟨err, he⟩ := convert_forbidden e h
      exact ⟨err, by simp [convert, he]⟩
  | .binOp op l r, h => by
    cases op with
    | bother => exact ⟨.valueError "malformed node or string", by simp [convert]⟩
    | badd =>
      simp [containsForbidden] at h
      rcases h with h | h
      · obtain ⟨err, he⟩ := convert_forbidden l h
        exact ⟨err, by simp [convert, he]⟩
      · cases hcl : convert l with
        | error err => exact ⟨err, by simp [convert, hcl]⟩
        | ok lv =>
          obtain ⟨err, he⟩ := convert_forbidden r h
          exact ⟨err, by simp [convert, hcl, he]⟩
    | bsub =>
      simp [containsForbidden] at h
      rcases h with h | h
      · obtain ⟨err, he⟩ := convert_forbidden l h
        exact ⟨err, by simp [convert, he]⟩
      · cases hcl : convert l with
        | error err => exact ⟨err, by simp [convert, hcl]⟩
        | ok lv =>
          obtain ⟨err, he⟩ := convert_forbidden r h
          exact ⟨err, by simp [convert, hcl, he]⟩
  | .compare _ _, h => ⟨.valueError "malformed node or string", by simp [convert]⟩
  | .attributeAccess _ _, h => ⟨.valueError "malformed node or string", by simp [convert]⟩
  | .subscript _ _, h => ⟨.valueError "malformed node or string", by simp [convert]⟩
  | .boolOp _ _, h => ⟨.valueError "malformed node or string", by simp [convert]⟩

/-- A list with a forbidden element fails conversion. -/
theorem convertList_forbidden : ∀ (es : PyExprList), anyForbiddenList es = true →
    ∃ err, convertList es = Except.error err
  | .nil, h => by simp [anyForbiddenList] at h
  | .cons e t, h => by
    simp [anyForbiddenList] at h
    rcases h with h | h
    · obtain ⟨err, he⟩ := convert_forbidden e h
      exact ⟨err, by simp [convertList, he]⟩
    · cases hce : convert e with
      | error err => exact ⟨err, by simp [convertList, hce]⟩
      | ok v =>
        obtain ⟨err, he⟩ := convertList_forbidden t h
        exact ⟨err, by simp [convertList, hce, he]⟩

/-- A pair sequence with a forbidden key or value fails conversion. -/
theorem convertPairs_forbidden : ∀ (kvs : PyExprPairs), anyForbiddenPairs kvs = true →
    ∃ err, convertPairs kvs = Except.error err
  | .nil, h => by simp [anyForbiddenPairs] at h
  | .cons k v t, h => by
    simp only [anyForbiddenPairs, Bool.or_eq_true] at h
    rcases h with (h | h) | h
    · obtain ⟨err, he⟩ := convert_forbidden k h
      exact ⟨err, by simp [convertPairs, he]⟩
    · cases hck : convert k with
      | error err => exact ⟨err, by simp [convertPairs, hck]⟩
      | ok kv =>
        obtain ⟨err, he⟩ := convert_forbidden v h
        exact ⟨err, by simp [convertPairs, hck, he]⟩
    · cases hck : convert k with
      | error err => exact ⟨err, by simp [convertPairs, hck]⟩
      | ok kv =>
        cases hcv : convert v with
        | error err => exact ⟨err, by simp [convertPairs, hck, hcv]⟩
        | ok vv =>
          obtain ⟨err, he⟩ := convertPairs_forbidden t h
          exact ⟨err, by simp [convertPairs, hck, hcv, he]⟩
end

/-- The error taxonomy of packet/utils.py as it drives control flow
(messages are not modelled): `UnknownPacket`, `InvalidData`,
`NotSerializable`, `UnknownEncryption`, plus `AttributeError` (raised by
`_setattr`/`__delattr__`) and `uncaughtException` for exceptions that
escape uncaught (e.g. a non-`ValueError` escaping `dumps`). -/
inductive Err : Type where
  | unknownPacket | invalidData | notSerializable | unknownEncryption
  | attributeError | uncaughtException
deriving DecidableEq, Repr

/-- `safe_eval` applied to an already-parsed expression: the `Expression`
body is handed to `_convert`.  (Applied to a string, `safe_eval` first
runs `ast.parse(s, mode="eval")`; a parse failure is a `SyntaxError`,
modelled by `Wire.malformed` below.) -/
def safe_eval : PyExpr → Except EvalErr PyVal := convert

/-- A unit of wire text as seen by `loads`, represented by its parse
under the active encoding: either text that fails to parse (a
`json.loads` error or an `ast.parse`/`safe_eval` failure — any such
exception is caught by `loads`), or text that parses to a value. -/
inductive Wire : Type where
  | malformed (msg : String)
  | value (v : PyVal)

/-- The attribute table of a packet instance: its attribute names (the
set `_get_attributes` discovers, here with the values attached, in
insertion order).  Python guarantees the names are distinct. -/
abbrev Attrs := List (String × PyVal)

/-- A `Packet` instance: `tag` models `self.__class__.__name__`
(`Packet.__tag__`), `attrs` the instance's attribute dictionary. -/
structure Packet : Type where
  tag : String
  attrs : Attrs

/-- The attribute-name set of a packet (`Packet._get_attributes`),
as a list of names. -/
def attrNames (p : Packet) : List String := p.attrs.map Prod.fst

/-- Attribute lookup in an attribute table (first binding; the names are
distinct in Python, so the direction is immaterial). -/
def attrLookup (attrs : Attrs) (name : String) : Option PyVal :=
  match attrs with
  | [] => none
  | kv :: t => if kv.1 = name then some kv.2 else attrLookup t name

/-- `getattr(p, name)`, if the attribute exists. -/
def getattrP (p : Packet) (name : String) : Option PyVal :=
  attrLookup p.attrs name

/-- `object.__setattr__`: unconditionally bind `name` to `v` in the
attribute table — replace the binding in place if the name is present
(Python dicts keep insertion order), append it if new. -/
def setattrRaw (attrs : Attrs) (name : String) (v : PyVal) : Attrs :=
  match attrs with
  | [] => [(name, v)]
  | kv :: t => if kv.1 = name then (name, v) :: t else kv :: setattrRaw t name v

/-- `_setattr` (basepacket.py lines 158-170), the `__setattr__` installed
after `__init__` returns: a name outside `_get_attributes` raises
`AttributeError`, otherwise `object.__setattr__` runs. -/
def _setattr (p : Packet) (name : String) (v : PyVal) : Except Err Packet :=
  if name ∈ attrNames p then .ok { p with attrs := setattrRaw p.attrs name v }
  else .error .attributeError

/-- `Packet.__delattr__` (basepacket.py lines 342-343): always raises
`AttributeError`. -/
def delattrPacket (_p : Packet) (_name : String) : Except Err Packet :=
  .error .attributeError

/-- `data[tag]` / `tag in data` on a parsed dict: first binding whose key
is the string `s` (parsed Python dicts have distinct keys, so the
direction of the search is immaterial). -/
def dictGet : PyValPairs → String → Option PyVal
  | .nil, _ => none
  | .cons (.vstr ks) v t, s => if ks = s then some v else dictGet t s
  | .cons _ _ t, s => dictGet t s

/-- Every key of the parsed dict is a string belonging to `names`. -/
def keysSubNames : PyValPairs → List String → Bool
  | .nil, _ => true
  | .cons (.vstr ks) _ t, names => names.contains ks && keysSubNames t names
  | .cons _ _ _, _ => false

/-- `set(data) == self._get_attributes(self)`: the key set of the parsed
dict equals the attribute-name set (mutual inclusion). -/
def keySetEq (kvs : PyValPairs) (names : List String) : Bool :=
  keysSubNames kvs names && names.all (fun s => (dictGet kvs s).isSome)

/-- `data.items()` with the keys as strings (under `keySetEq` every key
is a string, so nothing is dropped). -/
def strItems : PyValPairs → List (String × PyVal)
  | .nil => []
  | .cons (.vstr ks) v t => (ks, v) :: strItems t
  | .cons _ _ t => strItems t

/-- The write loop of `_update_dict`: `object.__setattr__` for each item,
in order. -/
def writeAll (attrs : Attrs) : List (String × PyVal) → Attrs
  | [] => attrs
  | (k, v) :: rest => writeAll (setattrRaw attrs k v) rest

/-- `Packet._update_dict` (basepacket.py lines 272-284): `InvalidData`
unless the data is a dict whose key set equals the attribute set; only
then are the attributes overwritten. -/
def _update_dict (p : Packet) (data : PyVal) : Except Err Packet :=
  match data with
  | .vdict kvs =>
    if keySetEq kvs (attrNames p) then
      .ok { p with attrs := writeAll p.attrs (strItems kvs) }
    else .error .invalidData
  | _ => .error .invalidData

/-- `Packet.loads` (basepacket.py lines 286-308) after the
encoding-specific parse (any parse exception is caught and re-raised as
`UnknownPacket`; both encodings yield a parsed value, so the logic after
the parse is encoding-independent): a non-dict parse is `UnknownPacket`,
a dict without the tag is `InvalidData`, otherwise `_update_dict` runs on
`data[tag]`. -/
def loads (p : Packet) (w : Wire) : Except Err Packet :=
  match w with
  | .malformed _ => .error .unknownPacket
  | .value v =>
    match v with
    | .vdict kvs =>
      match dictGet kvs p.tag with
      | none => .error .invalidData
      | some inner => _update_dict p inner
    | _ => .error .unknownPacket

/-- The string `json.dumps` uses for a non-string dict key it can encode:
int, float, bool and `None` keys are coerced to their JSON text (any
other key type raises `TypeError`).  The float key text is abstracted
like the float values themselves. -/
def jsonKeyStr : PyVal → Option String
  | .vstr s => some s
  | .vint n => some (toString n)
  | .vbool true => some "true"
  | .vbool false => some "false"
  | .vnone => some "null"
  | .vfloatApprox => some "floatkey"
  | _ => none

mutual
/-- The value produced by `json.loads(json.dumps(v))`: `none` models the
`TypeError` `json.dumps` raises on a value it cannot encode (sets, byte
strings, non-primitive dict keys).  Tuples are serialized as JSON arrays
and come back as lists; non-string primitive dict keys come back as
their coerced string. -/
def jsonVal : PyVal → Option PyVal
  | .vstr s => some (.vstr s)
  | .vint n => some (.vint n)
  | .vfloatApprox => some .vfloatApprox
  | .vbool b => some (.vbool b)
  | .vnone => some .vnone
  | .vbytes _ => none
  | .vset _ => none
  | .vtuple xs => (jsonList xs).map .vlist
  | .vlist xs => (jsonList xs).map .vlist
  | .vdict kvs => (jsonPairs kvs).map .vdict

/-- `jsonVal` on each element of a JSON array. -/
def jsonList : PyValList → Option PyValList
  | .nil => some .nil
  | .cons x t =>
    match jsonVal x, jsonList t with
    | some xv, some tv => some (.cons xv tv)
    | _, _ => none

/-- `jsonVal` on each binding of a JSON object: keys are coerced to
strings via `jsonKeyStr`. -/
def jsonPairs : PyValPairs → Option PyValPairs
  | .nil => some .nil
  | .cons k v t =>
    match jsonKeyStr k, jsonVal v, jsonPairs t with
    | some ks, some vv, some tv => some (.cons (.vstr ks) vv tv)
    | _, _, _ => none
end

mutual
/-- `_check_dict_keys` (basepacket.py lines 110-123) applied to one value
of a dict: the recursion descends only into values that are themselves
dicts — a dict nested inside a list, tuple or set is NOT inspected. -/
def valueDictKeysOk : PyVal → Bool
  | .vdict kvs => pairsKeysOk kvs
  | _ => true

/-- `_check_dict_keys` over the bindings of a dict: every key must be a
string (`isinstance(k, str)`), and dict-typed values are checked
recursively. -/
def pairsKeysOk : PyValPairs → Bool
  | .nil => true
  | .cons k v t =>
    (match k with | .vstr _ => true | _ => false) && valueDictKeysOk v && pairsKeysOk t
end

/-- `_check_dict_keys(_data)` on the attribute dictionary: its own keys
are attribute names (always strings), so only the dict-typed values are
checked. -/
def checkDictKeysAttrs (attrs : Attrs) : Bool :=
  attrs.all (fun kv => valueDictKeysOk kv.2)

/-- The attribute dictionary as a parsed Python dict value. -/
def attrsPairs : Attrs → PyValPairs
  | [] => .nil
  | (k, v) :: t => .cons (.vstr k) v (attrsPairs t)

/-- `{self.__tag__: self._generate_dict()}`: the envelope value that
`dumps` serializes. -/
def envelope (p : Packet) : PyVal :=
  .vdict (.cons (.vstr p.tag) (.vdict (attrsPairs p.attrs)) .nil)

/-- `Packet.dumps` under `JSON_SERIALIZER` (basepacket.py lines 264-270),
with the produced JSON text represented by the value it parses back to:
`_check_dict_keys(_data)` and then `json.dumps` both raise `TypeError`
on unserializable input, caught and re-raised as `NotSerializable`. -/
def dumps_json (p : Packet) : Except Err PyVal :=
  if checkDictKeysAttrs p.attrs then
    match jsonVal (envelope p) with
    | some w => .ok w
    | none => .error .notSerializable
  else .error .notSerializable

mutual
/-- The expression `ast.parse(repr(v), mode="eval")` yields for a literal
value `v`: negative ints parse as unary minus on a non-negative literal,
the empty set prints as `set()` (a call), the float atom prints as a
safe name (`inf` standing for all abstracted floats), and containers
print elementwise. -/
def reprAst : PyVal → PyExpr
  | .vstr s => .constStr s
  | .vbytes b => .constBytes b
  | .vint n => if n < 0 then .unaryOp .usub (.constInt (-n)) else .constInt n
  | .vfloatApprox => .name "inf"
  | .vbool b => .constBool b
  | .vnone => .constNone
  | .vtuple xs => .etuple (reprAstList xs)
  | .vlist xs => .elist (reprAstList xs)
  | .vset .nil => .call "set" .nil
  | .vset (.cons x t) => .eset (reprAstList (.cons x t))
  | .vdict kvs => .edict (reprAstPairs kvs)

/-- `reprAst` on each element. -/
def reprAstList : PyValList → PyExprList
  | .nil => .nil
  | .cons x t => .cons (reprAst x) (reprAstList t)

/-- `reprAst` on each binding. -/
def reprAstPairs : PyValPairs → PyExprPairs
  | .nil => .nil
  | .cons k v t => .cons (reprAst k) (reprAst v) (reprAstPairs t)
end

/-- `Packet.dumps` under `AST_SERIALIZER` (basepacket.py lines 258-263),
with the produced repr text represented by the value it parses back to:
`data = repr({tag: _data})` followed by a checking `safe_eval(data)`;
only a `ValueError` is caught and re-raised as `NotSerializable` — an
`AttributeError`/`TypeError` escaping `safe_eval` propagates uncaught. -/
def dumps_ast (p : Packet) : Except Err PyVal :=
  match safe_eval (reprAst (envelope p)) with
  | .ok w => .ok w
  | .error (.valueError _) => .error .notSerializable
  | .error _ => .error .uncaughtException

/-- The two process-wide serializers, `JSON_SERIALIZER` and
`AST_SERIALIZER` (`Packet.packet_serializer`). -/
inductive Serializer : Type where
  | jsonSer | astSer
deriving DecidableEq, Repr

/-- `Packet.dumps` (basepacket.py lines 251-270) under the active
serializer. -/
def dumps (ser : Serializer) (p : Packet) : Except Err PyVal :=
  match ser with
  | .jsonSer => dumps_json p
  | .astSer => dumps_ast p

/-- The result of `conn.recv(buffer_size)`: empty bytes (falsy), or
nonempty bytes represented by their parse under the active encoding. -/
inductive RecvData : Type where
  | empty
  | data (w : Wire)

/-- `Packet.receive_from` (basepacket.py lines 310-328), parameterized by
the `loads` implementation actually dispatched to (`self.loads`, which a
subclass such as `SafePacket` overrides): a missing connection or empty
read returns `False`; `UnknownPacket`/`InvalidData` from `loads` are
caught and return `False`; any other exception propagates. -/
def receive_from (loadsFn : Packet → Wire → Except Err Packet)
    (p : Packet) (conn : Option RecvData) : Except Err (Bool × Packet) :=
  match conn with
  | none => .ok (false, p)
  | some .empty => .ok (false, p)
  | some (.data w) =>
    match loadsFn p w with
    | .ok q => .ok (true, q)
    | .error .unknownPacket => .ok (false, p)
    | .error .invalidData => .ok (false, p)
    | .error e => .error e

/-- Modelled from the spec: the type check of `InspectedPacket.loads`
(spec section 4.4; the class lives in `packet/packet.py`, which is not
under `src/`).  For every decoded item, if the record's current value for
that attribute is not `None`, the decoded value's runtime type must equal
the current value's runtime type exactly; a current value of `None`
accepts any type. -/
def typesMatch (p : Packet) : List (String × PyVal) → Bool
  | [] => true
  | (k, v) :: rest =>
    (match getattrP p k with
     | some .vnone => true
     | some cur => decide (pyTypeOf v = pyTypeOf cur)
     | none => true) && typesMatch p rest

/-- Modelled from the spec: `InspectedPacket`'s variant of
`_update_dict` (spec section 4.4): after the attribute-set check
succeeds, the runtime-type check runs on every item, and only if it
passes are the attributes overwritten; a type mismatch is
`InvalidData`. -/
def inspected_update_dict (p : Packet) (data : PyVal) : Except Err Packet :=
  match data with
  | .vdict kvs =>
    if keySetEq kvs (attrNames p) then
      if typesMatch p (strItems kvs) then
        .ok { p with attrs := writeAll p.attrs (strItems kvs) }
      else .error .invalidData
    else .error .invalidData
  | _ => .error .invalidData

/-- Modelled from the spec: `InspectedPacket.loads` — `Packet.loads`
with the type-checked update in place of `_update_dict`. -/
def inspected_loads (p : Packet) (w : Wire) : Except Err Packet :=
  match w with
  | .malformed _ => .error .unknownPacket
  | .value v =>
    match v with
    | .vdict kvs =>
      match dictGet kvs p.tag with
      | none => .error .invalidData
      | some inner => inspected_update_dict p inner
    | _ => .error .unknownPacket

mutual
/-- The repr text of any literal value parses back, through `safe_eval`,
to the value itself: the AST encoding is faithful on the literal
universe. -/
theorem convert_reprAst : ∀ (v : PyVal), convert (reprAst v) = Except.ok v
  | .vstr s => by simp [reprAst, convert]
  | .vbytes b => by simp [reprAst, convert]
  | .vint n => by
    by_cases hn : n < 0
    · simp [reprAst, hn, convert, isNumPy, applyUnary]
    · simp [reprAst, hn, convert]
  | .vfloatApprox => by simp [reprAst, convert, safeNameVal]
  | .vbool b => by simp [reprAst, convert]
  | .vnone => by simp [reprAst, convert]
  | .vtuple xs => by simp [reprAst, convert, convertList_reprAstList xs]
  | .vlist xs => by simp [reprAst, convert, convertList_reprAstList xs]
  | .vset .nil => by simp [reprAst, convert, convertList, setCall]
  | .vset (.cons x t) => by simp [reprAst, convert, convertList_reprAstList (.cons x t)]
  | .vdict kvs => by simp [reprAst, convert, convertPairs_reprAstPairs kvs]

/-- Elementwise version of `convert_reprAst`. -/
theorem convertList_reprAstList : ∀ (xs : PyValList),
    convertList (reprAstList xs) = Except.ok xs
  | .nil => by simp [reprAstList, convertList]
  | .cons x t => by
    simp [reprAstList, convertList, convert_reprAst x, convertList_reprAstList t]

/-- Pairwise version of `convert_reprAst`. -/
theorem convertPairs_reprAstPairs : ∀ (kvs : PyValPairs),
    convertPairs (reprAstPairs kvs) = Except.ok kvs
  | .nil => by simp [reprAstPairs, convertPairs]
  | .cons k v t => by
    simp [reprAstPairs, convertPairs, convert_reprAst k, convert_reprAst v,
      convertPairs_reprAstPairs t]
end

/-- `dumps` under the AST serializer never raises on a packet of literal
values: the repr text always re-parses, so the round-trip check passes
and the wire parses back to the envelope itself. -/
theorem dumps_ast_ok (p : Packet) : dumps_ast p = Except.ok (envelope p) := by
  simp [dumps_ast, safe_eval, convert_reprAst]

mutual
/-- JSON-stable values: no tuples, sets or byte strings, and every dict
key (at every depth) is a string.  These come back from a
`json.dumps`/`json.loads` round trip unchanged. -/
def jsonStable : PyVal → Bool
  | .vstr _ => true
  | .vint _ => true
  | .vfloatApprox => true
  | .vbool _ => true
  | .vnone => true
  | .vbytes _ => false
  | .vtuple _ => false
  | .vset _ => false
  | .vlist xs => jsonStableList xs
  | .vdict kvs => jsonStablePairs kvs

/-- Elementwise `jsonStable`. -/
def jsonStableList : PyValList → Bool
  | .nil => true
  | .cons x t => jsonStable x && jsonStableList t

/-- Pairwise `jsonStable`: string keys, stable values. -/
def jsonStablePairs : PyValPairs → Bool
  | .nil => true
  | .cons k v t =>
    (match k with | .vstr _ => true | _ => false) && jsonStable v && jsonStablePairs t
end

mutual
/-- A JSON-stable value round-trips through the JSON encoding
unchanged. -/
theorem jsonVal_stable : ∀ (v : PyVal), jsonStable v = true → jsonVal v = some v
  | .vstr _, _ => by simp [jsonVal]
  | .vint _, _ => by simp [jsonVal]
  | .vfloatApprox, _ => by simp [jsonVal]
  | .vbool _, _ => by simp [jsonVal]
  | .vnone, _ => by simp [jsonVal]
  | .vbytes _, h => by simp [jsonStable] at h
  | .vtuple _, h => by simp [jsonStable] at h
  | .vset _, h => by simp [jsonStable] at h
  | .vlist xs, h => by
    simp [jsonVal, jsonList_stable xs (by simpa [jsonStable] using h)]
  | .vdict kvs, h => by
    simp [jsonVal, jsonPairs_stable kvs (by simpa [jsonStable] using h)]

/-- Elementwise version of `jsonVal_stable`. -/
theorem jsonList_stable : ∀ (xs : PyValList), jsonStableList xs = true →
    jsonList xs = some xs
  | .nil, _ => by simp [jsonList]
  | .cons x t, h => by
    simp only [jsonStableList, Bool.and_eq_true] at h
    simp [jsonList, jsonVal_stable x h.1, jsonList_stable t h.2]

/-- Pairwise version of `jsonVal_stable`. -/
theorem jsonPairs_stable : ∀ (kvs : PyValPairs), jsonStablePairs kvs = true →
    jsonPairs kvs = some kvs
  | .nil, _ => by simp [jsonPairs]
  | .cons k v t, h => by
    simp only [jsonStablePairs, Bool.and_eq_true] at h
    obtain ⟨⟨hk, hv⟩, ht⟩ := h
    cases k with
    | vstr s =>
      simp [jsonPairs, jsonKeyStr, jsonVal_stable v hv, jsonPairs_stable t ht]
    | vbytes b => simp at hk
    | vint n => simp at hk
    | vfloatApprox => simp at hk
    | vbool b => simp at hk
    | vnone => simp at hk
    | vtuple xs => simp at hk
    | vlist xs => simp at hk
    | vset xs => simp at hk
    | vdict kvs2 => simp at hk
end

mutual
/-- A JSON-stable value passes `_check_dict_keys` (stability requires
string keys on every dict reachable through dict values, which is more
than the check inspects). -/
theorem stable_valueDictKeysOk : ∀ (v : PyVal), jsonStable v = true →
    valueDictKeysOk v = true
  | .vdict kvs, h => by
    simp only [valueDictKeysOk]
    exact stable_pairsKeysOk kvs (by simpa [jsonStable] using h)
  | .vstr _, _ => by simp [valueDictKeysOk]
  | .vbytes _, _ => by simp [valueDictKeysOk]
  | .vint _, _ => by simp [valueDictKeysOk]
  | .vfloatApprox, _ => by simp [valueDictKeysOk]
  | .vbool _, _ => by simp [valueDictKeysOk]
  | .vnone, _ => by simp [valueDictKeysOk]
  | .vtuple _, _ => by simp [valueDictKeysOk]
  | .vlist _, _ => by simp [valueDictKeysOk]
  | .vset _, _ => by simp [valueDictKeysOk]

/-- Pairwise version of `stable_valueDictKeysOk`. -/
theorem stable_pairsKeysOk : ∀ (kvs : PyValPairs), jsonStablePairs kvs = true →
    pairsKeysOk kvs = true
  | .nil, _ => by simp [pairsKeysOk]
  | .cons k v t, h => by
    simp only [jsonStablePairs, Bool.and_eq_true] at h
    obtain ⟨⟨hk, hv⟩, ht⟩ := h
    simp only [pairsKeysOk, Bool.and_eq_true]
    refine ⟨⟨?_, stable_valueDictKeysOk v hv⟩, stable_pairsKeysOk t ht⟩
    cases k <;> simp_all
end

/-- Writing an attribute makes it readable. -/
theorem attrLookup_setattrRaw_self (attrs : Attrs) (k : String) (v : PyVal) :
    attrLookup (setattrRaw attrs k v) k = some v := by
  induction attrs with
  | nil => simp [setattrRaw, attrLookup]
  | cons kv t ih =>
    by_cases h : kv.1 = k
    · simp [setattrRaw, h, attrLookup]
    · simp [setattrRaw, h, attrLookup, ih]

/-- Writing an attribute leaves every other attribute unchanged. -/
theorem attrLookup_setattrRaw_other (attrs : Attrs) (k a : String) (v : PyVal)
    (hne : a ≠ k) : attrLookup (setattrRaw attrs k v) a = attrLookup attrs a := by
  have hne2 : ¬ k = a := fun h => hne h.symm
  induction attrs with
  | nil => simp [setattrRaw, attrLookup, hne2]
  | cons kv t ih =>
    by_cases h : kv.1 = k
    · have hka : ¬ kv.1 = a := by rw [h]; exact hne2
      simp [setattrRaw, h, attrLookup, hne2, hka]
    · by_cases ha : kv.1 = a
      · simp [setattrRaw, h, attrLookup, ha, hne]
      · simp [setattrRaw, h, attrLookup, ha, ih]

/-- Writing an existing attribute does not change the attribute-name
list. -/
theorem map_fst_setattrRaw_mem (attrs : Attrs) (k : String) (v : PyVal)
    (h : k ∈ attrs.map Prod.fst) :
    (setattrRaw attrs k v).map Prod.fst = attrs.map Prod.fst := by
  induction attrs with
  | nil => simp at h
  | cons kv t ih =>
    by_cases hk : kv.1 = k
    · simp [setattrRaw, hk]
    · simp only [List.map_cons, List.mem_cons] at h
      rcases h with h | h
      · exact absurd h.symm hk
      · simp [setattrRaw, hk, ih h]

/-- An attribute is readable exactly when its name is in the table. -/
theorem attrLookup_eq_none_iff (attrs : Attrs) (a : String) :
    attrLookup attrs a = none ↔ a ∉ attrs.map Prod.fst := by
  induction attrs with
  | nil => simp [attrLookup]
  | cons kv t ih =>
    by_cases h : kv.1 = a
    · simp [attrLookup, h]
    · rw [List.map_cons, List.mem_cons]
      simp only [attrLookup, if_neg h]
      rw [ih]
      constructor
      · intro hn hh
        rcases hh with hh | hh
        · exact h hh.symm
        · exact hn hh
      · intro hn hmem
        exact hn (Or.inr hmem)

/-- `isSome` version of `attrLookup_eq_none_iff`. -/
theorem attrLookup_isSome_iff (attrs : Attrs) (a : String) :
    (attrLookup attrs a).isSome = true ↔ a ∈ attrs.map Prod.fst := by
  rw [Option.isSome_iff_ne_none, ne_eq, attrLookup_eq_none_iff, not_not]

/-- Reading after the write loop: a name written by `data` (whose keys
are distinct) reads back its `data` value, anything else reads from the
original table. -/
theorem attrLookup_writeAll (data : List (String × PyVal)) (attrs : Attrs) (a : String)
    (hnd : (data.map Prod.fst).Nodup) :
    attrLookup (writeAll attrs data) a = (attrLookup data a).or (attrLookup attrs a) := by
  induction data generalizing attrs with
  | nil => simp [writeAll, attrLookup]
  | cons kv rest ih =>
    obtain ⟨k, v⟩ := kv
    simp only [List.map_cons, List.nodup_cons] at hnd
    simp only [writeAll]
    rw [ih _ hnd.2]
    by_cases hak : k = a
    · subst hak
      have hrest : attrLookup rest k = none := by
        rw [attrLookup_eq_none_iff]
        exact hnd.1
      simp [attrLookup, hrest, attrLookup_setattrRaw_self]
    · simp [attrLookup, hak, attrLookup_setattrRaw_other attrs k a v (fun hh => hak hh.symm)]

/-- The write loop over names already present preserves the
attribute-name list. -/
theorem map_fst_writeAll (data : List (String × PyVal)) (attrs : Attrs)
    (h : ∀ k ∈ data.map Prod.fst, k ∈ attrs.map Prod.fst) :
    (writeAll attrs data).map Prod.fst = attrs.map Prod.fst := by
  induction data generalizing attrs with
  | nil => simp [writeAll]
  | cons kv rest ih =>
    obtain ⟨k, v⟩ := kv
    simp only [writeAll]
    have hk : k ∈ attrs.map Prod.fst := h k (by simp)
    rw [ih _ (fun k2 hk2 => ?_), map_fst_setattrRaw_mem attrs k v hk]
    rw [map_fst_setattrRaw_mem attrs k v hk]
    exact h k2 (by simp [hk2])

/-- `data[s]` on the envelope's inner dict is attribute lookup. -/
theorem dictGet_attrsPairs (attrs : Attrs) (s : String) :
    dictGet (attrsPairs attrs) s = attrLookup attrs s := by
  induction attrs with
  | nil => simp [attrsPairs, dictGet, attrLookup]
  | cons kv t ih => simp [attrsPairs, dictGet, attrLookup, ih]

/-- The envelope's inner dict items are exactly the attribute table. -/
theorem strItems_attrsPairs (attrs : Attrs) : strItems (attrsPairs attrs) = attrs := by
  induction attrs with
  | nil => simp [attrsPairs, strItems]
  | cons kv t ih => simp [attrsPairs, strItems, ih]

/-- The keys of a parsed dict that passes `keysSubNames` are all in
`names` once extracted as strings. -/
theorem strItems_keys_sub : ∀ (kvs : PyValPairs) (names : List String),
    keysSubNames kvs names = true →
    ∀ k ∈ (strItems kvs).map Prod.fst, k ∈ names
  | .nil, _, _ => by simp [strItems]
  | .cons (.vstr ks) v t, names, h => by
    simp only [keysSubNames, Bool.and_eq_true] at h
    intro k hk
    simp only [strItems, List.map_cons, List.mem_cons] at hk
    rcases hk with hk | hk
    · subst hk
      simpa using h.1
    · exact strItems_keys_sub t names h.2 k hk
  | .cons (.vbytes _) _ _, _, h => by simp [keysSubNames] at h
  | .cons (.vint _) _ _, _, h => by simp [keysSubNames] at h
  | .cons .vfloatApprox _ _, _, h => by simp [keysSubNames] at h
  | .cons (.vbool _) _ _, _, h => by simp [keysSubNames] at h
  | .cons .vnone _ _, _, h => by simp [keysSubNames] at h
  | .cons (.vtuple _) _ _, _, h => by simp [keysSubNames] at h
  | .cons (.vlist _) _ _, _, h => by simp [keysSubNames] at h
  | .cons (.vset _) _ _, _, h => by simp [keysSubNames] at h
  | .cons (.vdict _) _ _, _, h => by simp [keysSubNames] at h

/-- The envelope's inner dict keys all belong to `names` when the
attribute names do. -/
theorem keysSubNames_attrsPairs (attrs : Attrs) (names : List String)
    (h : ∀ k ∈ attrs.map Prod.fst, k ∈ names) :
    keysSubNames (attrsPairs attrs) names = true := by
  induction attrs with
  | nil => simp [attrsPairs, keysSubNames]
  | cons kv t ih =>
    simp only [attrsPairs, keysSubNames, Bool.and_eq_true]
    refine ⟨?_, ih (fun k hk => h k (by simp [hk]))⟩
    have hm : kv.1 ∈ names := h kv.1 (by simp)
    simpa using hm

/-- The envelope's inner dict passes the attribute-set check against any
name list with the same member set. -/
theorem keySetEq_attrsPairs (attrs : Attrs) (names : List String)
    (h : ∀ s, s ∈ attrs.map Prod.fst ↔ s ∈ names) :
    keySetEq (attrsPairs attrs) names = true := by
  simp only [keySetEq, Bool.and_eq_true]
  refine ⟨keysSubNames_attrsPairs attrs names (fun k hk => (h k).1 hk), ?_⟩
  rw [List.all_eq_true]
  intro s hs
  rw [dictGet_attrsPairs, attrLookup_isSome_iff]
  exact (h s).2 hs

/-- Loading the envelope of `p` into a packet `q` with the same tag and
the same attribute-name set succeeds, and every attribute of the result
reads as `p`'s attribute (the hypothesis that `p`'s attribute names are
distinct is an invariant of Python instance dictionaries). -/
theorem loads_envelope (p q : Packet) (htag : p.tag = q.tag)
    (hkeys : ∀ s, s ∈ attrNames p ↔ s ∈ attrNames q)
    (hnodup : (attrNames p).Nodup) :
    loads q (.value (envelope p)) =
      Except.ok { tag := q.tag, attrs := writeAll q.attrs p.attrs } ∧
    ∀ a, attrLookup (writeAll q.attrs p.attrs) a = attrLookup p.attrs a := by
  constructor
  · simp only [loads, envelope, dictGet]
    rw [if_pos htag]
    simp only [_update_dict]
    rw [if_pos (keySetEq_attrsPairs p.attrs (attrNames q) hkeys), strItems_attrsPairs]
  · intro a
    rw [attrLookup_writeAll p.attrs q.attrs a hnodup]
    cases hpa : attrLookup p.attrs a with
    | some v => simp [Option.or]
    | none =>
      have hq : a ∉ attrNames q := fun hmem =>
        ((attrLookup_eq_none_iff p.attrs a).1 hpa) ((hkeys a).2 hmem)
      have hqa : attrLookup q.attrs a = none := (attrLookup_eq_none_iff q.attrs a).2 hq
      simp [Option.or, hqa]

/-- JSON serialization of the envelope's inner dict is the identity on
stable attribute values. -/
theorem jsonPairs_attrsPairs_stable (attrs : Attrs)
    (h : ∀ kv ∈ attrs, jsonStable kv.2 = true) :
    jsonPairs (attrsPairs attrs) = some (attrsPairs attrs) := by
  induction attrs with
  | nil => simp [attrsPairs, jsonPairs]
  | cons kv t ih =>
    simp [attrsPairs, jsonPairs, jsonKeyStr, jsonVal_stable kv.2 (h kv (by simp)),
      ih (fun kv2 hkv2 => h kv2 (by simp [hkv2]))]

/-- `dumps` under the JSON serializer succeeds on a packet whose
attribute values are all JSON-stable, and the wire parses back to the
envelope itself. -/
theorem dumps_json_stable (p : Packet)
    (hstable : ∀ kv ∈ p.attrs, jsonStable kv.2 = true) :
    dumps_json p = Except.ok (envelope p) := by
  have hcheck : checkDictKeysAttrs p.attrs = true := by
    rw [checkDictKeysAttrs, List.all_eq_true]
    intro kv hkv
    exact stable_valueDictKeysOk kv.2 (hstable kv hkv)
  have hjson : jsonVal (envelope p) = some (envelope p) := by
    simp [envelope, jsonVal, jsonPairs, jsonKeyStr, jsonPairs_attrsPairs_stable p.attrs hstable]
  simp [dumps_json, hcheck, hjson]

/-- C1: for every input expression, `safe_eval` either returns a value of
the literal grammar or raises an exception (totality into `Except` over
the literal value type), and any input containing a call to a
non-whitelisted callable (or a call whose function is not a plain name),
a comparison operator, attribute access, subscripting, boolean logic, a
unary or binary operator outside the permitted numeric `+`/`-`, or a
name outside the fixed safe-name set, fails evaluation with an exception
and never evaluates to a value.  Imports and assignments are statements,
which `ast.parse(..., mode="eval")` rejects with a `SyntaxError` before
`_convert` runs, so they also never execute. -/
theorem claim_C1_grammar_containment :
    (∀ e : PyExpr, (∃ v, safe_eval e = Except.ok v) ∨ (∃ err, safe_eval e = Except.error err)) ∧
    (∀ e : PyExpr, containsForbidden e = true → ∃ err, safe_eval e = Except.error err) := by
  constructor
  · intro e
    cases h : safe_eval e with
    | ok v => exact Or.inl ⟨v, rfl⟩
    | error err => exact Or.inr ⟨err, rfl⟩
  · exact fun e h => convert_forbidden e h

/-- Witness for C1 at the spec's own example, evaluating
`__import__("os")`. -/
theorem claim_C1_grammar_containment_witness :
    containsForbidden (.call "__import__" (.cons (.constStr "os") .nil)) = true ∧
    ∃ err, safe_eval (.call "__import__" (.cons (.constStr "os") .nil)) = Except.error err :=
  ⟨by rfl, claim_C1_grammar_containment.2 _ (by rfl)⟩

/-- C2 (amended): the `dumps`/`loads` round trip between two records with
the same tag and the same attribute-name set succeeds and restores every
attribute — for all records under the AST serializer, and for records
whose attribute values are JSON-stable (no tuples, sets or byte strings,
string dict keys at every depth) under the JSON serializer.  The
unrestricted claim fails under the JSON serializer, which turns tuples
into lists, rejects sets/bytes, and coerces non-string dict keys (see
the counterexample). -/
theorem claim_C2_round_trip (p q : Packet) (htag : p.tag = q.tag)
    (hkeys : ∀ s, s ∈ attrNames p ↔ s ∈ attrNames q)
    (hnodup : (attrNames p).Nodup) :
    (∃ w q', dumps Serializer.astSer p = Except.ok w ∧
      loads q (.value w) = Except.ok q' ∧ ∀ a, getattrP q' a = getattrP p a) ∧
    ((∀ kv ∈ p.attrs, jsonStable kv.2 = true) →
      ∃ w q', dumps Serializer.jsonSer p = Except.ok w ∧
        loads q (.value w) = Except.ok q' ∧ ∀ a, getattrP q' a = getattrP p a) := by
  obtain ⟨hload, hread⟩ := loads_envelope p q htag hkeys hnodup
  constructor
  · refine ⟨envelope p, _, ?_, hload, ?_⟩
    · simp [dumps, dumps_ast_ok]
    · intro a
      simpa [getattrP] using hread a
  · intro hstable
    refine ⟨envelope p, _, ?_, hload, ?_⟩
    · simp [dumps, dumps_json_stable p hstable]
    · intro a
      simpa [getattrP] using hread a

/-- Witness for C2: transfer `x = 1` into a same-shaped record holding
`x = 2` under the AST serializer. -/
theorem claim_C2_round_trip_witness :
    (attrNames { tag := "A", attrs := [("x", PyVal.vint 1)] }).Nodup ∧
    (∃ w q', dumps Serializer.astSer { tag := "A", attrs := [("x", PyVal.vint 1)] } = Except.ok w ∧
      loads { tag := "A", attrs := [("x", PyVal.vint 2)] } (.value w) = Except.ok q' ∧
      ∀ a, getattrP q' a = getattrP { tag := "A", attrs := [("x", PyVal.vint 1)] } a) :=
  ⟨by simp [attrNames],
    (claim_C2_round_trip { tag := "A", attrs := [("x", PyVal.vint 1)] }
      { tag := "A", attrs := [("x", PyVal.vint 2)] } rfl (fun s => Iff.rfl)
      (by simp [attrNames])).1⟩

/-- C2 counterexample: under the (default) JSON serializer a tuple-valued
attribute is serialized as a JSON array and comes back as a list — the
round trip succeeds but the receiver is not attribute-for-attribute
equal to the sender, refuting the claim for the JSON encoding. -/
theorem claim_C2_counterexample :
    dumps Serializer.jsonSer { tag := "A", attrs := [("x", PyVal.vtuple (.cons (.vint 1) .nil))] } =
      Except.ok (.vdict (.cons (.vstr "A")
        (.vdict (.cons (.vstr "x") (.vlist (.cons (.vint 1) .nil)) .nil)) .nil)) ∧
    loads { tag := "A", attrs := [("x", PyVal.vint 0)] }
        (.value (.vdict (.cons (.vstr "A")
          (.vdict (.cons (.vstr "x") (.vlist (.cons (.vint 1) .nil)) .nil)) .nil))) =
      Except.ok { tag := "A", attrs := [("x", PyVal.vlist (.cons (.vint 1) .nil))] } ∧
    getattrP { tag := "A", attrs := [("x", PyVal.vlist (.cons (.vint 1) .nil))] } "x" ≠
      getattrP { tag := "A", attrs := [("x", PyVal.vtuple (.cons (.vint 1) .nil))] } "x" := by
  refine ⟨by rfl, by rfl, ?_⟩
  intro h
  simp [getattrP, attrLookup] at h

/-- C10 (amended): the tag is the class name (`self.__class__.__name__`,
the `tag` field of the model) and `loads` consults only the tag and the
attribute-name set — no class identity exists in the decode path at all
— so any two instances with equal tags and equal attribute-name sets
accept each other's AST-serialized output, the receiver taking exactly
the sender's values.  (Under the JSON serializer acceptance also holds
but the values are the JSON images of the sender's values, which can
differ — see the counterexample.) -/
theorem claim_C10_tag_only (p q : Packet) (htag : p.tag = q.tag)
    (hkeys : ∀ s, s ∈ attrNames p ↔ s ∈ attrNames q)
    (hnodup : (attrNames p).Nodup) :
    ∃ w q', dumps_ast p = Except.ok w ∧ loads q (.value w) = Except.ok q' ∧
      ∀ a, getattrP q' a = getattrP p a := by
  obtain ⟨hload, hread⟩ := loads_envelope p q htag hkeys hnodup
  exact ⟨envelope p, _, dumps_ast_ok p, hload, fun a => by simpa [getattrP] using hread a⟩

/-- Witness for C10: transfer `y = "v"` between two same-shaped records
tagged `B`. -/
theorem claim_C10_tag_only_witness :
    (attrNames { tag := "B", attrs := [("y", PyVal.vstr "v")] }).Nodup ∧
    (∃ w q', dumps_ast { tag := "B", attrs := [("y", PyVal.vstr "v")] } = Except.ok w ∧
      loads { tag := "B", attrs := [("y", PyVal.vnone)] } (.value w) = Except.ok q' ∧
      ∀ a, getattrP q' a = getattrP { tag := "B", attrs := [("y", PyVal.vstr "v")] } a) :=
  ⟨by simp [attrNames],
    claim_C10_tag_only { tag := "B", attrs := [("y", PyVal.vstr "v")] }
      { tag := "B", attrs := [("y", PyVal.vnone)] } rfl (fun s => Iff.rfl)
      (by simp [attrNames])⟩

/-- C10 counterexample: under the JSON serializer, an integer dict key
nested inside a list survives `dumps` (no error) but is coerced to the
string `"1"`, so the receiving instance does not take the sender's
values. -/
theorem claim_C10_counterexample :
    dumps Serializer.jsonSer { tag := "A", attrs := [("x",
        PyVal.vlist (.cons (.vdict (.cons (.vint 1) (.vint 2) .nil)) .nil))] } =
      Except.ok (.vdict (.cons (.vstr "A") (.vdict (.cons (.vstr "x")
        (.vlist (.cons (.vdict (.cons (.vstr "1") (.vint 2) .nil)) .nil)) .nil)) .nil)) ∧
    loads { tag := "A", attrs := [("x", PyVal.vint 0)] }
        (.value (.vdict (.cons (.vstr "A") (.vdict (.cons (.vstr "x")
          (.vlist (.cons (.vdict (.cons (.vstr "1") (.vint 2) .nil)) .nil)) .nil)) .nil))) =
      Except.ok { tag := "A", attrs := [("x",
        PyVal.vlist (.cons (.vdict (.cons (.vstr "1") (.vint 2) .nil)) .nil))] } ∧
    getattrP { tag := "A", attrs := [("x",
        PyVal.vlist (.cons (.vdict (.cons (.vstr "1") (.vint 2) .nil)) .nil))] } "x" ≠
      getattrP { tag := "A", attrs := [("x",
        PyVal.vlist (.cons (.vdict (.cons (.vint 1) (.vint 2) .nil)) .nil))] } "x" := by
  refine ⟨by rfl, by rfl, ?_⟩
  intro h
  simp [getattrP, attrLookup] at h

/-- C3: parsed wire data that is a dict not containing the record's tag
(in particular, one carrying a different tag), or whose inner value is
not a dict with exactly the record's attribute-name set, makes `loads`
raise `InvalidData`.  `_update_dict` performs its dict check and its
attribute-set check before the write loop, so on every error path no
attribute is written: the error result carries no packet and the
caller's record is unchanged. -/
theorem claim_C3_schema_rejection :
    (∀ (p : Packet) (kvs : PyValPairs), dictGet kvs p.tag = none →
      loads p (.value (.vdict kvs)) = Except.error Err.invalidData) ∧
    (∀ (p : Packet) (kvs : PyValPairs) (inner : PyVal), dictGet kvs p.tag = some inner →
      (∀ ikvs, inner = PyVal.vdict ikvs → keySetEq ikvs (attrNames p) = false) →
      loads p (.value (.vdict kvs)) = Except.error Err.invalidData) := by
  constructor
  · intro p kvs h
    simp [loads, h]
  · intro p kvs inner h hbad
    simp only [loads, h]
    cases inner with
    | vdict ikvs => simp [_update_dict, hbad ikvs rfl]
    | vstr s => simp [_update_dict]
    | vbytes b => simp [_update_dict]
    | vint n => simp [_update_dict]
    | vfloatApprox => simp [_update_dict]
    | vbool b => simp [_update_dict]
    | vnone => simp [_update_dict]
    | vtuple xs => simp [_update_dict]
    | vlist xs => simp [_update_dict]
    | vset xs => simp [_update_dict]

/-- Witness for C3: a record tagged `A` with attribute set `x` rejects a
wire dict tagged `B`, and a wire tagged `A` whose inner attribute set is
`y`. -/
theorem claim_C3_schema_rejection_witness :
    (dictGet (.cons (.vstr "B") (.vint 0) .nil) "A" = none ∧
      loads { tag := "A", attrs := [("x", PyVal.vint 1)] }
        (.value (.vdict (.cons (.vstr "B") (.vint 0) .nil))) =
        Except.error Err.invalidData) ∧
    (dictGet (.cons (.vstr "A") (.vdict (.cons (.vstr "y") (.vint 2) .nil)) .nil) "A" =
        some (.vdict (.cons (.vstr "y") (.vint 2) .nil)) ∧
      loads { tag := "A", attrs := [("x", PyVal.vint 1)] }
        (.value (.vdict (.cons (.vstr "A") (.vdict (.cons (.vstr "y") (.vint 2) .nil)) .nil))) =
        Except.error Err.invalidData) :=
  ⟨⟨by rfl, claim_C3_schema_rejection.1 { tag := "A", attrs := [("x", PyVal.vint 1)] }
      (.cons (.vstr "B") (.vint 0) .nil) (by rfl)⟩,
   ⟨by rfl, claim_C3_schema_rejection.2 { tag := "A", attrs := [("x", PyVal.vint 1)] }
      (.cons (.vstr "A") (.vdict (.cons (.vstr "y") (.vint 2) .nil)) .nil)
      (.vdict (.cons (.vstr "y") (.vint 2) .nil)) (by rfl)
      (fun ikvs hik => by
        cases hik
        rfl)⟩⟩

/-- C4 counterexample: a parsed mapping that contains the record's tag
plus an additional top-level key is accepted by `loads` (the extra key
is ignored), not rejected with `UnknownPacket` as the claim states —
`loads` never checks that the mapping has exactly one key. -/
theorem claim_C4_counterexample :
    loads { tag := "A", attrs := [("x", PyVal.vint 1)] }
        (.value (.vdict (.cons (.vstr "A")
          (.vdict (.cons (.vstr "x") (.vint 2) .nil))
          (.cons (.vstr "B") (.vint 0) .nil)))) =
      Except.ok { tag := "A", attrs := [("x", PyVal.vint 2)] } := by rfl

/-- C4 (amended): `loads` raises `UnknownPacket` exactly when parsing
raises or the parsed result is not a mapping; it never checks the
mapping's key count — a parsed dict never produces `UnknownPacket` (a
dict missing the tag is `InvalidData`, and a dict containing the tag is
processed normally regardless of extra top-level keys). -/
theorem claim_C4_unknown_packet :
    (∀ (p : Packet) (msg : String), loads p (.malformed msg) = Except.error Err.unknownPacket) ∧
    (∀ (p : Packet) (v : PyVal), (∀ kvs, v ≠ PyVal.vdict kvs) →
      loads p (.value v) = Except.error Err.unknownPacket) ∧
    (∀ (p : Packet) (kvs : PyValPairs),
      loads p (.value (.vdict kvs)) ≠ Except.error Err.unknownPacket) := by
  refine ⟨fun p msg => rfl, ?_, ?_⟩
  · intro p v hv
    cases v with
    | vdict kvs => exact absurd rfl (hv kvs)
    | vstr s => rfl
    | vbytes b => rfl
    | vint n => rfl
    | vfloatApprox => rfl
    | vbool b => rfl
    | vnone => rfl
    | vtuple xs => rfl
    | vlist xs => rfl
    | vset xs => rfl
  · intro p kvs h
    cases hd : dictGet kvs p.tag with
    | none => simp [loads, hd] at h
    | some inner =>
      cases inner with
      | vdict ikvs =>
        by_cases hk : keySetEq ikvs (attrNames p) = true
        · simp [loads, hd, _update_dict, hk] at h
        · simp [loads, hd, _update_dict, hk] at h
      | vstr s => simp [loads, hd, _update_dict] at h
      | vbytes b => simp [loads, hd, _update_dict] at h
      | vint n => simp [loads, hd, _update_dict] at h
      | vfloatApprox => simp [loads, hd, _update_dict] at h
      | vbool b => simp [loads, hd, _update_dict] at h
      | vnone => simp [loads, hd, _update_dict] at h
      | vtuple xs => simp [loads, hd, _update_dict] at h
      | vlist xs => simp [loads, hd, _update_dict] at h
      | vset xs => simp [loads, hd, _update_dict] at h

/-- Witness for C4: a parsed non-dict value (`5`) raises
`UnknownPacket`. -/
theorem claim_C4_unknown_packet_witness :
    (∀ kvs, PyVal.vint 5 ≠ PyVal.vdict kvs) ∧
    loads { tag := "A", attrs := [] } (.value (.vint 5)) = Except.error Err.unknownPacket :=
  ⟨fun _kvs h => PyVal.noConfusion h,
   claim_C4_unknown_packet.2.1 { tag := "A", attrs := [] } (.vint 5)
     (fun _kvs h => PyVal.noConfusion h)⟩

/-- C6: the attribute set fixed at construction is preserved: after
`__init__`, assigning a name outside the set raises `AttributeError`
(`_setattr`), deleting any attribute raises `AttributeError`
(`__delattr__`), and a successful `loads` leaves the attribute-name list
unchanged (it only overwrites names already in the set). -/
theorem claim_C6_fixed_attribute_set :
    (∀ (p : Packet) (name : String) (v : PyVal), name ∉ attrNames p →
      _setattr p name v = Except.error Err.attributeError) ∧
    (∀ (p : Packet) (name : String), delattrPacket p name = Except.error Err.attributeError) ∧
    (∀ (p q : Packet) (w : Wire), loads p w = Except.ok q → attrNames q = attrNames p) := by
  refine ⟨?_, fun p name => rfl, ?_⟩
  · intro p name v h
    simp [_setattr, h]
  · intro p q w h
    cases w with
    | malformed msg => simp [loads] at h
    | value v =>
      cases v with
      | vdict kvs =>
        cases hd : dictGet kvs p.tag with
        | none => simp [loads, hd] at h
        | some inner =>
          cases inner with
          | vdict ikvs =>
            by_cases hk : keySetEq ikvs (attrNames p) = true
            · simp only [loads, hd, _update_dict, if_pos hk] at h
              obtain rfl := (Except.ok.inj h).symm
              simp only [attrNames]
              apply map_fst_writeAll
              intro k hkmem
              have hsub : keysSubNames ikvs (attrNames p) = true := by
                have h2 := hk
                simp only [keySetEq, Bool.and_eq_true] at h2
                exact h2.1
              exact strItems_keys_sub ikvs (attrNames p) hsub k hkmem
            · simp [loads, hd, _update_dict, hk] at h
          | vstr s => simp [loads, hd, _update_dict] at h
          | vbytes b => simp [loads, hd, _update_dict] at h
          | vint n => simp [loads, hd, _update_dict] at h
          | vfloatApprox => simp [loads, hd, _update_dict] at h
          | vbool b => simp [loads, hd, _update_dict] at h
          | vnone => simp [loads, hd, _update_dict] at h
          | vtuple xs => simp [loads, hd, _update_dict] at h
          | vlist xs => simp [loads, hd, _update_dict] at h
          | vset xs => simp [loads, hd, _update_dict] at h
      | vstr s => simp [loads] at h
      | vbytes b => simp [loads] at h
      | vint n => simp [loads] at h
      | vfloatApprox => simp [loads] at h
      | vbool b => simp [loads] at h
      | vnone => simp [loads] at h
      | vtuple xs => simp [loads] at h
      | vlist xs => simp [loads] at h
      | vset xs => simp [loads] at h

/-- Witness for C6: writing unknown attribute `z` fails, deleting fails,
and a successful concrete `loads` preserves the name list `[x]`. -/
theorem claim_C6_fixed_attribute_set_witness :
    (("z" : String) ∉ attrNames { tag := "A", attrs := [("x", PyVal.vint 1)] } ∧
      _setattr { tag := "A", attrs := [("x", PyVal.vint 1)] } "z" (PyVal.vint 9) =
        Except.error Err.attributeError) ∧
    delattrPacket { tag := "A", attrs := [("x", PyVal.vint 1)] } "x" =
      Except.error Err.attributeError ∧
    (loads { tag := "A", attrs := [("x", PyVal.vint 1)] }
        (.value (.vdict (.cons (.vstr "A") (.vdict (.cons (.vstr "x") (.vint 2) .nil)) .nil))) =
        Except.ok { tag := "A", attrs := [("x", PyVal.vint 2)] } ∧
      attrNames { tag := "A", attrs := [("x", PyVal.vint 2)] } =
        attrNames { tag := "A", attrs := [("x", PyVal.vint 1)] }) :=
  ⟨⟨by simp [attrNames],
    claim_C6_fixed_attribute_set.1 { tag := "A", attrs := [("x", PyVal.vint 1)] } "z"
      (PyVal.vint 9) (by simp [attrNames])⟩,
   claim_C6_fixed_attribute_set.2.1 { tag := "A", attrs := [("x", PyVal.vint 1)] } "x",
   ⟨by rfl,
    claim_C6_fixed_attribute_set.2.2 { tag := "A", attrs := [("x", PyVal.vint 1)] }
      { tag := "A", attrs := [("x", PyVal.vint 2)] }
      (.value (.vdict (.cons (.vstr "A") (.vdict (.cons (.vstr "x") (.vint 2) .nil)) .nil)))
      (by rfl)⟩⟩

/-- C9: `receive_from` returns `False` without raising when the
connection is `None`, when the read returns empty, or when the loads
call raises `UnknownPacket`/`InvalidData`; it returns `True` when the
loads call succeeds; and it catches only those two errors, so
`NotSerializable` and `UnknownEncryption` raised by the dispatched
`loads` (e.g. `SafePacket`'s decrypting override) propagate to the
caller. -/
theorem claim_C9_receive_from (f : Packet → Wire → Except Err Packet) (p : Packet) :
    receive_from f p none = Except.ok (false, p) ∧
    receive_from f p (some .empty) = Except.ok (false, p) ∧
    (∀ w, f p w = Except.error Err.unknownPacket →
      receive_from f p (some (.data w)) = Except.ok (false, p)) ∧
    (∀ w, f p w = Except.error Err.invalidData →
      receive_from f p (some (.data w)) = Except.ok (false, p)) ∧
    (∀ w q, f p w = Except.ok q →
      receive_from f p (some (.data w)) = Except.ok (true, q)) ∧
    (∀ w, f p w = Except.error Err.notSerializable →
      receive_from f p (some (.data w)) = Except.error Err.notSerializable) ∧
    (∀ w, f p w = Except.error Err.unknownEncryption →
      receive_from f p (some (.data w)) = Except.error Err.unknownEncryption) :=
  ⟨rfl, rfl,
   fun w h => by simp [receive_from, h],
   fun w h => by simp [receive_from, h],
   fun w q h => by simp [receive_from, h],
   fun w h => by simp [receive_from, h],
   fun w h => by simp [receive_from, h]⟩

/-- Witness for C9: a loads override raising `UnknownEncryption`
propagates through `receive_from`. -/
theorem claim_C9_receive_from_witness :
    (fun (_ : Packet) (_ : Wire) => (Except.error Err.unknownEncryption : Except Err Packet))
        { tag := "A", attrs := [] } (.malformed "x") = Except.error Err.unknownEncryption ∧
    receive_from (fun _ _ => Except.error Err.unknownEncryption) { tag := "A", attrs := [] }
        (some (.data (.malformed "x"))) = Except.error Err.unknownEncryption :=
  ⟨rfl, (claim_C9_receive_from (fun _ _ => Except.error Err.unknownEncryption)
    { tag := "A", attrs := [] }).2.2.2.2.2.2 (.malformed "x") rfl⟩

/-- C7 (modelled from the spec): in the type-constrained variant, after
the attribute-set check succeeds each decoded value's runtime type is
compared with the record's current value's runtime type: with attribute
`a` currently holding an integer, decoding a payload where `a` is a
string raises `InvalidData`, decoding a payload where `a` is a
(possibly different) integer succeeds, and an attribute whose current
value is none accepts a value of any type. -/
theorem claim_C7_type_lock (tag a s : String) (m n : Int) (v : PyVal) :
    inspected_loads { tag := tag, attrs := [(a, PyVal.vint m)] }
        (.value (.vdict (.cons (.vstr tag) (.vdict (.cons (.vstr a) (.vstr s) .nil)) .nil))) =
      Except.error Err.invalidData ∧
    inspected_loads { tag := tag, attrs := [(a, PyVal.vint m)] }
        (.value (.vdict (.cons (.vstr tag) (.vdict (.cons (.vstr a) (.vint n) .nil)) .nil))) =
      Except.ok { tag := tag, attrs := [(a, PyVal.vint n)] } ∧
    inspected_loads { tag := tag, attrs := [(a, PyVal.vnone)] }
        (.value (.vdict (.cons (.vstr tag) (.vdict (.cons (.vstr a) v .nil)) .nil))) =
      Except.ok { tag := tag, attrs := [(a, v)] } := by
  refine ⟨?_, ?_, ?_⟩
  · simp [inspected_loads, dictGet, inspected_update_dict, keySetEq, keysSubNames, strItems,
      typesMatch, getattrP, attrLookup, attrNames, pyTypeOf, writeAll, setattrRaw]
  · simp [inspected_loads, dictGet, inspected_update_dict, keySetEq, keysSubNames, strItems,
      typesMatch, getattrP, attrLookup, attrNames, pyTypeOf, writeAll, setattrRaw]
  · simp [inspected_loads, dictGet, inspected_update_dict, keySetEq, keysSubNames, strItems,
      typesMatch, getattrP, attrLookup, attrNames, pyTypeOf, writeAll, setattrRaw]

mutual
/-- Following the claim's words (not the code): some mapping key at some
nesting depth — including inside lists, tuples and sets — is not a
string. -/
def hasNonStrKeyDeep : PyVal → Bool
  | .vdict kvs => pairsHasNonStrKeyDeep kvs
  | .vlist xs => listHasNonStrKeyDeep xs
  | .vtuple xs => listHasNonStrKeyDeep xs
  | .vset xs => listHasNonStrKeyDeep xs
  | _ => false

/-- Elementwise `hasNonStrKeyDeep`. -/
def listHasNonStrKeyDeep : PyValList → Bool
  | .nil => false
  | .cons x t => hasNonStrKeyDeep x || listHasNonStrKeyDeep t

/-- Pairwise `hasNonStrKeyDeep`: a non-string key here, or deeper inside
a key or a value. -/
def pairsHasNonStrKeyDeep : PyValPairs → Bool
  | .nil => false
  | .cons k v t =>
    (match k with | .vstr _ => false | _ => true) || hasNonStrKeyDeep k ||
      hasNonStrKeyDeep v || pairsHasNonStrKeyDeep t
end

/-- C5 counterexample: a record whose attribute holds a dict with an
integer key nested inside a tuple has a non-string mapping key at
nesting depth, yet `dumps` under the JSON serializer succeeds — the
check recurses only through dict values and `json.dumps` silently
coerces the integer key — refuting "raises exactly when ... a
non-string mapping key at any nesting depth (including a dict nested
inside a list or other container)". -/
theorem claim_C5_counterexample :
    hasNonStrKeyDeep (PyVal.vtuple (.cons (.vdict (.cons (.vint 7) (.vint 8) .nil)) .nil)) = true ∧
    dumps Serializer.jsonSer { tag := "A", attrs := [("x",
        PyVal.vtuple (.cons (.vdict (.cons (.vint 7) (.vint 8) .nil)) .nil))] } =
      Except.ok (.vdict (.cons (.vstr "A") (.vdict (.cons (.vstr "x")
        (.vlist (.cons (.vdict (.cons (.vstr "7") (.vint 8) .nil)) .nil)) .nil)) .nil)) :=
  ⟨by rfl, by rfl⟩

/-- C5 (amended): under the JSON serializer, `dumps` raises
`NotSerializable` whenever some attribute value fails `_check_dict_keys`
(a non-string key reachable through a chain of dict values; dicts nested
inside other containers are not inspected), and succeeds on every record
whose attribute values are JSON-stable; under the AST serializer,
`dumps` raises exactly when re-parsing the produced repr raises a
`ValueError` — which on records of literal values never happens, so AST
`dumps` always succeeds there. -/
theorem claim_C5_not_serializable :
    (∀ p : Packet, (∃ kv ∈ p.attrs, valueDictKeysOk kv.2 = false) →
      dumps Serializer.jsonSer p = Except.error Err.notSerializable) ∧
    (∀ p : Packet, (∀ kv ∈ p.attrs, jsonStable kv.2 = true) →
      dumps Serializer.jsonSer p = Except.ok (envelope p)) ∧
    (∀ p : Packet, dumps Serializer.astSer p = Except.ok (envelope p)) := by
  refine ⟨?_, ?_, fun p => by simp [dumps, dumps_ast_ok]⟩
  · intro p hbad
    obtain ⟨kv, hkv, hfail⟩ := hbad
    have hcheck : checkDictKeysAttrs p.attrs = false := by
      cases hall : checkDictKeysAttrs p.attrs
      · rfl
      · exfalso
        rw [checkDictKeysAttrs, List.all_eq_true] at hall
        have hgood := hall kv hkv
        rw [hfail] at hgood
        exact Bool.noConfusion hgood
    simp [dumps, dumps_json, hcheck]
  · intro p hstable
    simp [dumps, dumps_json_stable p hstable]

/-- Witness for C5: a dict attribute with an integer key (as a direct
dict value, where the check does look) makes JSON `dumps` raise
`NotSerializable`. -/
theorem claim_C5_not_serializable_witness :
    (∃ kv ∈ (⟨"A", [("x", PyVal.vdict (.cons (.vint 1) (.vint 2) .nil))]⟩ : Packet).attrs,
      valueDictKeysOk kv.2 = false) ∧
    dumps Serializer.jsonSer
        (⟨"A", [("x", PyVal.vdict (.cons (.vint 1) (.vint 2) .nil))]⟩ : Packet) =
      Except.error Err.notSerializable :=
  ⟨⟨("x", PyVal.vdict (.cons (.vint 1) (.vint 2) .nil)), by simp, by rfl⟩,
   claim_C5_not_serializable.1
     (⟨"A", [("x", PyVal.vdict (.cons (.vint 1) (.vint 2) .nil))]⟩ : Packet)
     ⟨("x", PyVal.vdict (.cons (.vint 1) (.vint 2) .nil)), by simp, by rfl⟩⟩

/-- Byte strings (cipher inputs/outputs). -/
abbrev Bytes := List Nat

/-- Modelled from the spec: the cipher's block size (spec section 4.3;
the encryption overlay lives in packet/safepacket.py, which is not under
src/, so the whole overlay is modelled from the spec). -/
abbrev blockSize : Nat := 16

/-- Modelled from the spec: a key-derived block.  The spec fixes only
that the cipher is a keyed permutation on blocks with a matching
inverse, so the block operation is abstracted as XOR with this block
(an involutive keyed permutation). -/
def keyBlock (key : Bytes) : Bytes :=
  (List.range blockSize).map (fun i => key.getD i 0)

/-- Modelled from the spec: the abstract block cipher (its own
inverse). -/
def encBlock (key : Bytes) (b : Bytes) : Bytes :=
  List.zipWith Nat.xor b (keyBlock key)

/-- Modelled from the spec: the reversible padding scheme of the
block-chaining mode (PKCS7): append `n` copies of the byte `n`, where
`n` is the distance to the next block boundary (a full extra block when
already aligned). -/
def padPKCS7 (p : Bytes) : Bytes :=
  p ++ List.replicate (blockSize - p.length % blockSize) (blockSize - p.length % blockSize)

/-- Modelled from the spec: remove and validate the padding, failing
with `InvalidData` if it is malformed. -/
def unpadPKCS7 (p : Bytes) : Except Err Bytes :=
  if p.length = 0 then .error .invalidData
  else if p.getD (p.length - 1) 0 = 0 ∨ blockSize < p.getD (p.length - 1) 0 ∨
      p.length < p.getD (p.length - 1) 0 then .error .invalidData
  else if (p.drop (p.length - p.getD (p.length - 1) 0)).all
      (fun b => b = p.getD (p.length - 1) 0) then
    .ok (p.take (p.length - p.getD (p.length - 1) 0))
  else .error .invalidData

/-- Modelled from the spec: CBC chaining — each plaintext block is XORed
with the previous ciphertext block (initially the IV) before the block
cipher is applied. -/
def cbcEncBlocks (key : Bytes) (prev : Bytes) : List Bytes → List Bytes
  | [] => []
  | b :: bs =>
    encBlock key (List.zipWith Nat.xor b prev) ::
      cbcEncBlocks key (encBlock key (List.zipWith Nat.xor b prev)) bs

/-- Modelled from the spec: CBC de-chaining. -/
def cbcDecBlocks (key : Bytes) (prev : Bytes) : List Bytes → List Bytes
  | [] => []
  | c :: cs => List.zipWith Nat.xor (encBlock key c) prev :: cbcDecBlocks key c cs

/-- Split a byte string into blocks of `blockSize` bytes (the last block
may be short when the input is not aligned). -/
def chunks (l : Bytes) : List Bytes :=
  if _h : l.length = 0 then []
  else l.take blockSize :: chunks (l.drop blockSize)
termination_by l.length
decreasing_by simp only [List.length_drop, blockSize]; omega

/-- Modelled from the spec: the counter-mode keystream — counter blocks
derived from the IV, fed through the abstract cipher, one byte per
position. -/
def ctrStream (key iv : Bytes) (n : Nat) : Bytes :=
  (List.range n).map (fun j =>
    Nat.xor (Nat.xor ((keyBlock key).getD (j % blockSize) 0) (iv.getD (j % blockSize) 0))
      (j / blockSize))

/-- The two encryption modes of packet/utils.py, `CBC_MODE` and
`CTR_MODE`. -/
inductive CipherMode : Type where
  | CBC_MODE | CTR_MODE
deriving DecidableEq, Repr

/-- Modelled from the spec: `encrypt(plaintext, key, mode)` with the
freshly generated random IV passed explicitly (the spec fixes its length
to the cipher's block size): for CBC the plaintext is padded to a block
multiple and chained; for CTR no padding is applied and the plaintext is
XORed with the keystream.  Returns the IV-prefixed ciphertext. -/
def encrypt (key iv : Bytes) (mode : CipherMode) (p : Bytes) : Bytes :=
  match mode with
  | .CBC_MODE => iv ++ (cbcEncBlocks key iv (chunks (padPKCS7 p))).flatten
  | .CTR_MODE => iv ++ List.zipWith Nat.xor p (ctrStream key iv p.length)

/-- Modelled from the spec: `decrypt(ciphertext, key, mode)`: split the
leading IV from the remaining ciphertext, decrypt, and for the padded
mode validate and remove the padding, failing with `InvalidData` when
the padding is malformed (or the remainder is not block-aligned). -/
def decrypt (key : Bytes) (mode : CipherMode) (c : Bytes) : Except Err Bytes :=
  match mode with
  | .CBC_MODE =>
    if (c.drop blockSize).length % blockSize = 0 then
      unpadPKCS7 (cbcDecBlocks key (c.take blockSize) (chunks (c.drop blockSize))).flatten
    else .error .invalidData
  | .CTR_MODE =>
    .ok (List.zipWith Nat.xor (c.drop blockSize)
      (ctrStream key (c.take blockSize) (c.drop blockSize).length))

/-- `Nat.xor_cancel_right` phrased on `Nat.xor` applications. -/
theorem nat_xor_cancel (m n : Nat) : Nat.xor (Nat.xor m n) n = m :=
  Nat.xor_cancel_right n m

/-- XOR-ing twice with the same (long enough) stream restores the
input. -/
theorem zipWith_xor_cancel (a : Bytes) : ∀ (s : Bytes), a.length ≤ s.length →
    List.zipWith Nat.xor (List.zipWith Nat.xor a s) s = a := by
  induction a with
  | nil => intro s _; simp
  | cons x a ih =>
    intro s h
    cases s with
    | nil => simp at h
    | cons y s =>
      simp only [List.zipWith_cons_cons]
      rw [nat_xor_cancel, ih s (by simpa using h)]

/-- The key-derived block has block length. -/
theorem keyBlock_length (key : Bytes) : (keyBlock key).length = blockSize := by
  simp [keyBlock]

/-- The abstract block cipher preserves block length. -/
theorem encBlock_length (key b : Bytes) (h : b.length = blockSize) :
    (encBlock key b).length = blockSize := by
  simp [encBlock, keyBlock_length, h]

/-- The abstract block cipher is its own inverse on blocks. -/
theorem encBlock_involutive (key b : Bytes) (h : b.length = blockSize) :
    encBlock key (encBlock key b) = b := by
  simp only [encBlock]
  exact zipWith_xor_cancel b (keyBlock key) (by simp [h, keyBlock_length])

/-- CBC decryption inverts CBC encryption on block-sized blocks. -/
theorem cbcDec_cbcEnc (key : Bytes) : ∀ (bs : List Bytes) (prev : Bytes),
    prev.length = blockSize → (∀ b ∈ bs, b.length = blockSize) →
    cbcDecBlocks key prev (cbcEncBlocks key prev bs) = bs := by
  intro bs
  induction bs with
  | nil => intro prev _ _; simp [cbcEncBlocks, cbcDecBlocks]
  | cons b bs ih =>
    intro prev hprev hall
    have hb : b.length = blockSize := hall b (by simp)
    have hxor : (List.zipWith Nat.xor b prev).length = blockSize := by
      simp [hb, hprev]
    simp only [cbcEncBlocks, cbcDecBlocks]
    rw [encBlock_involutive key _ hxor,
      zipWith_xor_cancel b prev (by rw [hb, hprev]),
      ih _ (encBlock_length key _ hxor) (fun b2 hb2 => hall b2 (by simp [hb2]))]

/-- CBC ciphertext blocks have block length. -/
theorem cbcEncBlocks_length (key : Bytes) : ∀ (bs : List Bytes) (prev : Bytes),
    prev.length = blockSize → (∀ b ∈ bs, b.length = blockSize) →
    ∀ c ∈ cbcEncBlocks key prev bs, c.length = blockSize := by
  intro bs
  induction bs with
  | nil => intro prev _ _ c hc; simp [cbcEncBlocks] at hc
  | cons b bs ih =>
    intro prev hprev hall c hc
    have hb : b.length = blockSize := hall b (by simp)
    have hxor : (List.zipWith Nat.xor b prev).length = blockSize := by
      simp [hb, hprev]
    simp only [cbcEncBlocks, List.mem_cons] at hc
    rcases hc with rfl | hc
    · exact encBlock_length key _ hxor
    · exact ih _ (encBlock_length key _ hxor)
        (fun b2 hb2 => hall b2 (by simp [hb2])) c hc

/-- Concatenating block-sized blocks yields a block-aligned string. -/
theorem flatten_length_mod (bs : List Bytes) (h : ∀ b ∈ bs, b.length = blockSize) :
    bs.flatten.length % blockSize = 0 := by
  induction bs with
  | nil => simp
  | cons b bs ih =>
    have hb := h b (by simp)
    have ht := ih (fun b2 hb2 => h b2 (by simp [hb2]))
    simp only [List.flatten_cons, List.length_append]
    simp only [blockSize] at hb ht ⊢
    omega

/-- Chunking the concatenation of block-sized blocks gives the blocks
back. -/
theorem chunks_flatten : ∀ (bs : List Bytes), (∀ b ∈ bs, b.length = blockSize) →
    chunks bs.flatten = bs := by
  intro bs
  induction bs with
  | nil =>
    intro _
    rw [List.flatten_nil]
    unfold chunks
    simp
  | cons b bs ih =>
    intro h
    have hb : b.length = blockSize := h b (by simp)
    rw [List.flatten_cons]
    unfold chunks
    rw [dif_neg (by simp [hb, blockSize])]
    rw [← hb, List.take_left, List.drop_left, ih (fun x hx => h x (by simp [hx]))]

/-- Chunking a block-aligned byte string yields block-sized chunks whose
concatenation is the original string. -/
theorem chunks_aligned : ∀ (n : Nat) (l : Bytes), l.length = n →
    l.length % blockSize = 0 →
    (∀ b ∈ chunks l, b.length = blockSize) ∧ (chunks l).flatten = l := by
  intro n
  induction n using Nat.strong_induction_on with
  | _ n ih =>
    intro l hln hmod
    by_cases h0 : l.length = 0
    · have hnil : l = [] := List.length_eq_zero.mp h0
      subst hnil
      constructor
      · intro b hb
        unfold chunks at hb
        simp at hb
      · unfold chunks
        simp
    · have h16 : blockSize ≤ l.length := by
        simp only [blockSize] at hmod ⊢
        omega
      have hdropmod : (l.drop blockSize).length % blockSize = 0 := by
        simp only [List.length_drop, blockSize] at hmod ⊢
        omega
      have hlt : (l.drop blockSize).length < n := by
        simp only [List.length_drop, blockSize]
        omega
      obtain ⟨ihall, ihflat⟩ := ih _ hlt (l.drop blockSize) rfl hdropmod
      constructor
      · intro b hb
        unfold chunks at hb
        rw [dif_neg h0] at hb
        rcases List.mem_cons.mp hb with rfl | hb2
        · simp only [List.length_take]
          omega
        · exact ihall b hb2
      · unfold chunks
        rw [dif_neg h0, List.flatten_cons, ihflat, List.take_append_drop]

/-- Padding always produces a block-aligned string. -/
theorem padPKCS7_mod (p : Bytes) : (padPKCS7 p).length % blockSize = 0 := by
  simp only [padPKCS7, List.length_append, List.length_replicate, blockSize]
  omega

/-- Unpadding inverts appending `n` copies of the byte `n`, for any
valid pad length `n`. -/
theorem unpad_append_replicate (p : Bytes) (n : Nat) (h1 : 1 ≤ n) (h2 : n ≤ blockSize) :
    unpadPKCS7 (p ++ List.replicate n n) = Except.ok p := by
  have hlen : (p ++ List.replicate n n).length = p.length + n := by simp
  have hgd : (p ++ List.replicate n n).getD (p.length + n - 1) 0 = n := by
    rw [List.getD_append_right _ _ _ _ (by omega)]
    have hidx : p.length + n - 1 - p.length = n - 1 := by omega
    rw [hidx, List.getD_eq_getElem _ _ (by simp only [List.length_replicate]; omega)]
    simp
  simp only [unpadPKCS7, hgd, hlen]
  rw [if_neg (by omega)]
  rw [if_neg (by simp only [blockSize] at h2 ⊢; omega)]
  rw [if_pos ?_]
  · rw [Nat.add_sub_cancel, List.take_left]
  · rw [Nat.add_sub_cancel, List.drop_left, List.all_eq_true]
    intro b hb
    simpa using (List.eq_of_mem_replicate hb)

/-- Unpadding inverts padding. -/
theorem unpad_pad (p : Bytes) : unpadPKCS7 (padPKCS7 p) = Except.ok p := by
  have hlt : p.length % blockSize < blockSize := Nat.mod_lt _ (by simp)
  exact unpad_append_replicate p (blockSize - p.length % blockSize)
    (by simp only [blockSize] at hlt ⊢; omega) (by omega)

/-- The counter keystream has the requested length. -/
theorem ctrStream_length (key iv : Bytes) (n : Nat) : (ctrStream key iv n).length = n := by
  simp [ctrStream]

/-- C8 (modelled from the spec): for both supported modes, every key and
every block-length IV (the IV argument stands for the fresh random draw
`encrypt` performs), `decrypt(encrypt(P, key, mode), key, mode) = P` for
every plaintext `P` — in particular for lengths 0, 1, blockSize−1,
blockSize and blockSize+1 — and the ciphertext is IV-prefixed, its
leading `blockSize` bytes being exactly the IV. -/
theorem claim_C8_encryption_round_trip (key iv p : Bytes) (mode : CipherMode)
    (hiv : iv.length = blockSize) :
    decrypt key mode (encrypt key iv mode p) = Except.ok p ∧
    (encrypt key iv mode p).take blockSize = iv := by
  cases mode with
  | CTR_MODE =>
    have hs : (ctrStream key iv p.length).length = p.length := ctrStream_length key iv p.length
    have htake : (iv ++ List.zipWith Nat.xor p (ctrStream key iv p.length)).take blockSize = iv := by
      rw [← hiv]
      exact List.take_left _ _
    have hdrop : (iv ++ List.zipWith Nat.xor p (ctrStream key iv p.length)).drop blockSize =
        List.zipWith Nat.xor p (ctrStream key iv p.length) := by
      rw [← hiv]
      exact List.drop_left _ _
    have hblen : (List.zipWith Nat.xor p (ctrStream key iv p.length)).length = p.length := by
      simp [hs]
    constructor
    · simp only [encrypt, decrypt, htake, hdrop, hblen]
      rw [zipWith_xor_cancel p _ (by rw [hs])]
    · simpa only [encrypt] using htake
  | CBC_MODE =>
    obtain ⟨hcs_len, hcs_flat⟩ :=
      chunks_aligned (padPKCS7 p).length (padPKCS7 p) rfl (padPKCS7_mod p)
    have heb_len : ∀ c ∈ cbcEncBlocks key iv (chunks (padPKCS7 p)), c.length = blockSize :=
      cbcEncBlocks_length key (chunks (padPKCS7 p)) iv hiv hcs_len
    have hbody_mod :
        (cbcEncBlocks key iv (chunks (padPKCS7 p))).flatten.length % blockSize = 0 :=
      flatten_length_mod _ heb_len
    have htake :
        (iv ++ (cbcEncBlocks key iv (chunks (padPKCS7 p))).flatten).take blockSize = iv := by
      rw [← hiv]
      exact List.take_left _ _
    have hdrop :
        (iv ++ (cbcEncBlocks key iv (chunks (padPKCS7 p))).flatten).drop blockSize =
          (cbcEncBlocks key iv (chunks (padPKCS7 p))).flatten := by
      rw [← hiv]
      exact List.drop_left _ _
    constructor
    · simp only [encrypt, decrypt, hdrop, htake]
      rw [if_pos hbody_mod, chunks_flatten _ heb_len,
        cbcDec_cbcEnc key _ iv hiv hcs_len, hcs_flat]
      exact unpad_pad p
    · simpa only [encrypt] using htake

/-- Witness for C8: the CBC round trip on a concrete 3-byte plaintext
with a concrete key and the all-zero IV. -/
theorem claim_C8_encryption_round_trip_witness :
    (List.replicate blockSize 0 : Bytes).length = blockSize ∧
    (decrypt [1, 2, 3] CipherMode.CBC_MODE
        (encrypt [1, 2, 3] (List.replicate blockSize 0) CipherMode.CBC_MODE [9, 8, 7]) =
      Except.ok [9, 8, 7] ∧
    (encrypt [1, 2, 3] (List.replicate blockSize 0) CipherMode.CBC_MODE [9, 8, 7]).take blockSize =
      List.replicate blockSize 0) :=
  ⟨by simp, claim_C8_encryption_round_trip [1, 2, 3] (List.replicate blockSize 0) [9, 8, 7]
    CipherMode.CBC_MODE (by simp)⟩
